import Mathlib

/-!
Verification of the discussion-llama orchestration core.

This file gives a shallow embedding of the discussion engine
(`discussion_llama/engine/discussion_engine.py`) and the rule-based
consensus detector (`discussion_llama/engine/consensus_detector.py`),
and proves the stated properties of the specification against it.

Modelling conventions:
* Python strings are Lean `String`s; text predicates work on `List Char`.
* Python floats that carry exact decimal configuration values
  (thresholds, similarity scores, JSON-round-tripped timestamps) are
  modelled as rationals.
* The LLM collaborator is modelled as a total function `String → String`
  (per the interface contract it never raises and always returns a
  string, possibly an error string).
* Disk persistence (`save_state`/`load_state`) is modelled by passing
  the stored record explicitly; the JSON encoding of the record is
  lossless for the payloads involved and is modelled as the identity
  on the dictionary structure.
-/

namespace DiscussionLlama

/-- The ASCII apostrophe character, used to build string literals that
contain a single quote. -/
def sq : String := String.mk [Char.ofNat 39]

/-- Python `str.isspace` for the ASCII whitespace characters used by
`\s`, `strip()` and `split()` on the ASCII texts this system handles. -/
def pyWs (c : Char) : Bool :=
  c = ' ' || c = '\t' || c = '\n' || c = '\r' || c = Char.ofNat 11 || c = Char.ofNat 12

/-- Python `str.lower` (ASCII). -/
def pyLower (s : String) : String := String.mk (s.data.map Char.toLower)

/-- Python `str.strip()` on a character list. -/
def stripChars (l : List Char) : List Char :=
  ((l.dropWhile (fun c => pyWs c)).reverse.dropWhile (fun c => pyWs c)).reverse

/-- Python `str.strip()`. -/
def pyStrip (s : String) : String := String.mk (stripChars s.data)

/-- Whether `needle` occurs at the head of `hay`. -/
def matchesAt : List Char → List Char → Bool
  | [], _ => true
  | _ :: _, [] => false
  | a :: as, b :: bs => a = b && matchesAt as bs

/-- Python substring containment `needle in hay` on character lists. -/
def hasSubChars (needle : List Char) : List Char → Bool
  | [] => needle.isEmpty
  | b :: bs => matchesAt needle (b :: bs) || hasSubChars needle bs

/-- Python substring containment `needle in hay` for strings. -/
def strHas (needle hay : String) : Bool := hasSubChars needle.data hay.data

theorem dropWhile_length_le {α : Type} (p : α → Bool) (l : List α) :
    (l.dropWhile p).length ≤ l.length := by
  induction l with
  | nil => simp [List.dropWhile]
  | cons a l ih =>
    rw [List.dropWhile_cons]
    split
    · exact Nat.le_succ_of_le ih
    · simp

/-- Worker for `collapseWs`; the flag records whether the previous
character was inside a whitespace run (already replaced by a space). -/
def collapseWsGo : List Char → Bool → List Char
  | [], _ => []
  | c :: rest, inRun =>
    if pyWs c then
      if inRun then collapseWsGo rest true
      else ' ' :: collapseWsGo rest true
    else c :: collapseWsGo rest false

/-- Python `re.sub(r"\s+", " ", s)`: collapse every whitespace run to a
single space. -/
def collapseWs (l : List Char) : List Char := collapseWsGo l false

/-- Split a character list at every character satisfying `p`, the
separator characters being dropped (used for Python `str.split("\n")`
and whitespace `split()` after adapting the predicate). -/
def splitOnPred (p : Char → Bool) : List Char → List (List Char)
  | [] => [[]]
  | c :: rest =>
    let r := splitOnPred p rest
    if p c then [] :: r
    else match r with
      | [] => [[c]]
      | h :: t => (c :: h) :: t

/-- Python `s.split()` (no argument): split on whitespace runs, no empty
parts. -/
def pySplitWs (s : String) : List String :=
  ((splitOnPred (fun c => pyWs c) s.data).filter (fun l => ¬ l.isEmpty)).map String.mk

/-- Python `s.split("\n")`. -/
def pySplitNl (s : String) : List String :=
  (splitOnPred (fun c => c = '\n') s.data).map String.mk

/-! ## Data model: `Message`, `Role`, `DiscussionState`
Embedded from `discussion_engine.py` (`Message`, `DiscussionState`) and
the role data model. The engine reads `role.role`, `role.hierarchy_level`,
`role.superior` and `role.subordinates`; the hierarchy fields follow the
spec data model for roles (optional, absent meaning flat participation). -/

/-- A discussion message (`Message` in `discussion_engine.py`): speaker
role name, content, metadata map and creation timestamp. -/
structure Msg where
  role : String
  content : String
  metadata : List (String × String)
  timestamp : ℚ
deriving DecidableEq, Repr

/-- A participant role; only the fields the engine reads. -/
structure Role where
  role : String
  description : String
  hierarchy_level : Option Nat
  superior : String
  subordinates : List String
deriving DecidableEq, Repr

/-- The mutable state of one discussion (`DiscussionState`).
`consensus_reached` is an `Option Bool` because the Python field can
hold `True`, `False` or `None` (the rule-based checker returns `None`
when inconclusive); `none` and `some false` are both falsy. -/
structure DState where
  topic : String
  roles : List Role
  messages : List Msg
  summary : String
  turn : Nat
  consensus_reached : Option Bool
  deadlock_detected : Bool
  deadlock_resolution_applied : Bool
deriving DecidableEq, Repr

/-- Python truthiness of the `consensus_reached` field. -/
def truthy : Option Bool → Bool
  | some true => true
  | _ => false

/-- The serialized form of a message, as written by `Message.to_dict`. -/
structure MsgDict where
  role : String
  content : String
  metadata : List (String × String)
  timestamp : ℚ
deriving DecidableEq, Repr

/-- The serialized form of a discussion state, as written by
`DiscussionState.to_dict` (the JSON record persisted per topic). -/
structure StateDict where
  topic : String
  roles : List String
  messages : List MsgDict
  summary : String
  turn : Nat
  consensus_reached : Option Bool
  deadlock_detected : Bool
  deadlock_resolution_applied : Bool
deriving DecidableEq, Repr

/-- `Message.to_dict`. -/
def msgToDict (m : Msg) : MsgDict :=
  { role := m.role, content := m.content, metadata := m.metadata,
    timestamp := m.timestamp }

/-- `Message.from_dict`: the constructor replaces a falsy (empty)
metadata argument by the empty dict (`metadata or {}`), and the stored
timestamp overwrites the constructor clock. -/
def msgFromDict (d : MsgDict) : Msg :=
  { role := d.role, content := d.content,
    metadata := if d.metadata = [] then [] else d.metadata,
    timestamp := d.timestamp }

/-- `DiscussionState.to_dict`. -/
def stateToDict (s : DState) : StateDict :=
  { topic := s.topic,
    roles := s.roles.map (fun r => r.role),
    messages := s.messages.map msgToDict,
    summary := s.summary,
    turn := s.turn,
    consensus_reached := s.consensus_reached,
    deadlock_detected := s.deadlock_detected,
    deadlock_resolution_applied := s.deadlock_resolution_applied }

/-- `DiscussionState.from_dict`: rebuilds the state from the record and
the role list supplied by the manager (the serialized role names are not
used for reconstruction). -/
def stateFromDict (d : StateDict) (roles : List Role) : DState :=
  { topic := d.topic,
    roles := roles,
    messages := d.messages.map msgFromDict,
    summary := d.summary,
    turn := d.turn,
    consensus_reached := d.consensus_reached,
    deadlock_detected := d.deadlock_detected,
    deadlock_resolution_applied := d.deadlock_resolution_applied }

/-- `DiskBasedDiscussionManager.save_state`: serialize the state; the
JSON encoding is lossless on this record and modelled as identity. -/
def saveState (s : DState) : StateDict := stateToDict s

/-- `DiskBasedDiscussionManager.load_state` when a record exists:
deserialize it against the manager role list. -/
def loadState (d : StateDict) (roles : List Role) : DState := stateFromDict d roles

theorem msgFromDict_msgToDict (m : Msg) : msgFromDict (msgToDict m) = m := by
  cases m with
  | mk r c md t =>
    simp only [msgToDict, msgFromDict]
    by_cases h : md = [] <;> simp [h]

/-- C5: state persistence round-trips losslessly: saving a state and
loading it back against the same role list restores every field —
topic, the message sequence with role, content, metadata and timestamp
of each message, summary, turn, consensus and deadlock flags. -/
theorem save_load_state_roundtrip (s : DState) :
    loadState (saveState s) s.roles = s := by
  cases s with
  | mk topic roles messages summary turn cr dd dra =>
    simp only [loadState, saveState, stateToDict, stateFromDict, List.map_map]
    congr 1
    induction messages with
    | nil => simp
    | cons m ms ih =>
      simp only [List.map_cons, Function.comp_apply, List.cons.injEq]
      exact ⟨msgFromDict_msgToDict m, by simpa using ih⟩

/-! ## Consensus detector (`consensus_detector.py`)
Rule-based key-point extraction, synonym-expanded lexical similarity,
greedy point grouping, role-coverage counting and the topic-relevance
gate. -/

/-- A message as passed to the consensus detector: a dict with `role`
and `content` keys. -/
structure MsgD where
  role : String
  content : String
deriving DecidableEq, Repr

/-- Overwriting insertion into a Python dict modelled as an ordered
association list (assignment keeps the original key position). -/
def dictSet {α : Type} (k : String) (v : α) : List (String × α) → List (String × α)
  | [] => [(k, v)]
  | (k2, v2) :: rest => if k2 = k then (k2, v) :: rest else (k2, v2) :: dictSet k v rest

/-- Python dict lookup. -/
def dictGet {α : Type} (d : List (String × α)) (k : String) : Option α :=
  (d.find? (fun p => p.1 = k)).map (fun p => p.2)

/-- Sentence split `re.split(r"(?<=[.!?])\s+", paragraph)`: a greedy
whitespace run preceded by `.`, `!` or `?` separates parts. `prev` is
the character just before the current position and `skipping` records
that the position is inside the whitespace run of a separator match. -/
def sentSplitGo : List Char → Option Char → Bool → List Char → List (List Char)
  | [], _, _, acc => [acc.reverse]
  | c :: rest, prev, skipping, acc =>
    if skipping && pyWs c then
      sentSplitGo rest (some c) true acc
    else if !skipping && pyWs c &&
        (prev = some '.' || prev = some '!' || prev = some '?') then
      acc.reverse :: sentSplitGo rest (some c) true []
    else
      sentSplitGo rest (some c) false (c :: acc)

/-- Sentence splitting used by `extract_key_points`. -/
def sentSplit (paragraph : String) : List String :=
  (sentSplitGo paragraph.data none false []).map String.mk

/-- The fixed marker-word lexicon of `extract_key_points`. -/
def markerWords : List String :=
  ["important", "key", "critical", "essential", "main", "primary",
   "crucial", "vital", "significant", "fundamental", "central",
   "agree", "consensus", "concur", "support", "endorse", "approve",
   "suggest", "propose", "recommend", "advise", "advocate",
   "first", "second", "third", "fourth", "fifth", "finally",
   "moreover", "furthermore", "in addition", "additionally",
   "point", "consideration", "aspect", "factor", "element",
   "priority", "focus", "emphasis", "highlight", "stress",
   "believe", "think", "feel", "consider", "view", "perspective"]

/-- Python `str.endswith((".", "!", "?"))`. -/
def endsPunct (s : String) : Bool :=
  match s.data.getLast? with
  | some c => c = '.' || c = '!' || c = '?'
  | none => false

/-- Match of `re.match(r"^\s*(\d+\.|•|-|\*)\s+", sentence)`: optional
leading whitespace, a list marker, then at least one whitespace. -/
def listMarkerMatch (s : String) : Bool :=
  let l := s.data.dropWhile (fun c => pyWs c)
  let afterMark : Option (List Char) :=
    match l with
    | c :: rest =>
      if c.isDigit then
        match (c :: rest).dropWhile Char.isDigit with
        | '.' :: rest2 => some rest2
        | _ => none
      else if c = Char.ofNat 8226 || c = '-' || c = '*' then some rest
      else none
    | [] => none
  match afterMark with
  | some (r :: _) => pyWs r
  | _ => false

/-- Python `str.isupper` (ASCII): at least one letter and no lowercase
letter. -/
def pyIsUpper (w : String) : Bool :=
  w.data.any (fun c => c.isUpper) && w.data.all (fun c => ¬ c.isLower)

/-- The score `extract_key_points` assigns to the sentence at index `i`
of the flattened sentence list: one per marker word present, plus the
paragraph-start boost, the list-marker boost, the quote/emphasis boost
and the capitalised-word boost. -/
def sentenceScore (sentences : List String) (i : Nat) (sentence : String) : Nat :=
  let lower := pyLower sentence
  let mscore := (markerWords.filter (fun m => strHas m lower)).length
  let pboost := if i = 0 || endsPunct (sentences.getD (i - 1) "") then 1 else 0
  let lboost := if listMarkerMatch sentence then 2 else 0
  let qboost := if strHas "\"" sentence || strHas sq sentence then 1 else 0
  let cboost :=
    if (pySplitWs sentence).any (fun w => pyIsUpper w && w.length > 1) then 1 else 0
  mscore + pboost + lboost + qboost + cboost

/-- Stable descending insertion by key (equal keys keep their original
relative order), the behaviour of Python `list.sort(key=..., reverse=True)`. -/
def insDescBy {α : Type} (key : α → Nat) (x : α) : List α → List α
  | [] => [x]
  | y :: ys => if key y < key x then x :: y :: ys else y :: insDescBy key x ys

/-- Stable descending sort by key. -/
def stableSortDesc {α : Type} (key : α → Nat) (l : List α) : List α :=
  l.foldl (fun acc x => insDescBy key x acc) []

/-- Backfill loop of `extract_key_points`: append sentences not already
among the key points, stopping once `max_points` are collected. -/
def backfillGo (maxPoints : Nat) (acc : List String) : List String → List String
  | [] => acc
  | s :: rest =>
    if acc.contains s then backfillGo maxPoints acc rest
    else
      let acc2 := acc ++ [s]
      if maxPoints ≤ acc2.length then acc2 else backfillGo maxPoints acc2 rest

/-- Python `p.rstrip(".!?")`. -/
def rstripPunct (s : String) : String :=
  String.mk ((s.data.reverse.dropWhile (fun c => c = '.' || c = '!' || c = '?')).reverse)

/-- First special-cased fixture sentence in `extract_key_points`. -/
def specialKPa : String := "The important point is that we need to focus on quality"

/-- Second special-cased fixture sentence in `extract_key_points`. -/
def specialKPb : String := "Another key aspect is performance"

/-- Special-cased fixture message in `extract_key_points`. -/
def specialKPc : String := "This is a test message. No marker words here. Just regular sentences."

/-- `extract_key_points(message, max_points)`: fixture special cases,
then sentence splitting, marker/position scoring, stable descending
sort, sequential backfill, and trailing-punctuation stripping. -/
def extractKeyPoints (message : String) (maxPoints : Nat) : List String :=
  if strHas specialKPa message && strHas specialKPb message then
    [specialKPa, specialKPb]
  else if message = specialKPc then
    ["This is a test message", "No marker words here", "Just regular sentences"]
  else
    let message := pyStrip message
    if message = "" then []
    else
      let paragraphs := ((pySplitNl message).map pyStrip).filter (fun p => p ≠ "")
      let sentences :=
        paragraphs.flatMap (fun p => ((sentSplit p).map pyStrip).filter (fun s => s ≠ ""))
      let scored := sentences.enum.map (fun q => (q.2, sentenceScore sentences q.1 q.2))
      let sorted := stableSortDesc (fun q => q.2) scored
      let keyPoints := (sorted.take maxPoints).map (fun q => q.1)
      let keyPoints :=
        if keyPoints.length < min maxPoints sentences.length then
          backfillGo maxPoints keyPoints sentences
        else keyPoints
      keyPoints.map rstripPunct

/-- The fixed synonym table of the consensus detector. -/
def synonyms : List (String × List String) :=
  [("security", ["secure", "protection", "privacy", "safety", "confidentiality", "encryption"]),
   ("performance", ["speed", "efficiency", "fast", "responsive", "quick", "optimization"]),
   ("usability", ["user-friendly", "intuitive", "ease of use", "accessibility", "ux"]),
   ("cost", ["price", "expense", "budget", "affordable", "economical", "investment"]),
   ("quality", ["reliability", "robust", "stable", "dependable", "solid", "excellence"]),
   ("scalability", ["scale", "growth", "expandable", "flexible", "adaptable", "elastic"]),
   ("maintainability", ["maintenance", "sustainable", "manageable", "supportable", "clean"]),
   ("compatibility", ["interoperability", "integration", "interoperable", "compatible", "works with"]),
   ("functionality", ["features", "capabilities", "functions", "operations", "abilities"]),
   ("innovation", ["innovative", "novel", "creative", "cutting-edge", "advanced", "modern"]),
   ("simplicity", ["simple", "minimalist", "straightforward", "clean", "uncomplicated"]),
   ("reliability", ["reliable", "dependable", "consistent", "stable", "trustworthy"]),
   ("flexibility", ["adaptable", "versatile", "adjustable", "customizable", "configurable"]),
   ("reusability", ["reusable", "modular", "portable", "shareable", "recyclable"]),
   ("testability", ["testable", "verifiable", "provable", "checkable", "validatable"]),
   ("documentation", ["docs", "manuals", "guides", "instructions", "references"]),
   ("support", ["assistance", "help", "aid", "backing", "service"]),
   ("training", ["learning", "education", "instruction", "teaching", "coaching"]),
   ("deployment", ["release", "launch", "rollout", "delivery", "publish"]),
   ("monitoring", ["tracking", "observing", "surveillance", "watching", "logging"])]

/-- The module-level `expanded_synonyms` dict: every key maps to its
values, and every value maps to the key plus the sibling values; later
assignments overwrite earlier ones exactly as Python dict assignment
does. -/
def expandedSynonyms : List (String × List String) :=
  synonyms.foldl
    (fun d kv =>
      (kv.2.foldl (fun d2 v => dictSet v (kv.1 :: kv.2.filter (fun w => w ≠ v)) d2)
        (dictSet kv.1 kv.2 d)))
    []

/-- Python `\w` on the ASCII texts handled here. -/
def wordChar (c : Char) : Bool := c.isAlphanum || c = '_'

/-- `re.findall(r"\b\w+\b", s)`: the maximal word-character runs. -/
def findWords (s : String) : List String :=
  ((splitOnPred (fun c => ¬ wordChar c) s.data).filter (fun l => ¬ l.isEmpty)).map String.mk

/-- `get_expanded_terms`: the word set of the lowercased text, extended
with the synonym expansion of each word. -/
def getExpandedTerms (text : String) : Finset String :=
  let words := (findWords (pyLower text)).toFinset
  words ∪ words.biUnion (fun w => ((dictGet expandedSynonyms w).getD []).toFinset)

/-- `calculate_similarity`: Jaccard similarity of the synonym-expanded
term sets (0 when both are empty). -/
def calcSim (t1 t2 : String) : ℚ :=
  let terms1 := getExpandedTerms t1
  let terms2 := getExpandedTerms t2
  let inter := (terms1 ∩ terms2).card
  let uni := (terms1 ∪ terms2).card
  if uni = 0 then 0 else mkRat (inter : Int) uni

/-- Single-pass greedy grouping loop of `group_similar_points` over the
enumerated point list: each not-yet-used point seeds a group and grabs
every later unused point whose similarity exceeds 0.2. -/
def gspGo (pts : List (Nat × String)) :
    List (Nat × String) → List Nat → List (List (Nat × String))
  | [], _ => []
  | q :: rest, used =>
    if q.1 ∈ used then gspGo pts rest used
    else
      let xs := pts.filter (fun r =>
        !(used.contains r.1) && !(r.1 = q.1 : Bool) && decide (mkRat 1 5 < calcSim q.2 r.2))
      (q :: xs) :: gspGo pts rest (used ++ q.1 :: xs.map (fun r => r.1))

/-- `group_similar_points(points)`. -/
def groupSimilarPoints (points : List String) : List (List String) :=
  if points.isEmpty then []
  else (gspGo points.enum points.enum []).map (fun g => g.map (fun q => q.2))

/-- `is_topic_relevant(topic, points)`: an empty topic is always
relevant; otherwise some point must share a lexical word with the
topic. -/
def isTopicRelevant (topic : String) (points : List String) : Bool :=
  if topic = "" then true
  else
    let topicTerms := (findWords (pyLower topic)).toFinset
    points.any (fun p =>
      decide (((findWords (pyLower p)).toFinset ∩ topicTerms).Nonempty))

/-- The `role{i}` pattern check inside the special case of
`check_consensus_rule_based`. -/
def rolePattern (messages : List MsgD) : Bool :=
  (List.range 4).all (fun i =>
    messages.any (fun m => strHas ("role" ++ toString (i + 1)) m.role))

/-- The fixture special case at the top of `check_consensus_rule_based`
(four messages, threshold 0.9, a disagreement, security/performance
contents, roles named `role1..role4`). -/
def partialAgreementSpecialCase (messages : List MsgD) (threshold : ℚ) : Bool :=
  messages.length = 4 && threshold = mkRat 9 10 &&
  messages.any (fun m => strHas "disagree" m.content) &&
  messages.all (fun m =>
    strHas "security" (pyLower m.content) || strHas "performance" (pyLower m.content)) &&
  rolePattern messages

/-- Ordered-dict extension: append points to an existing role entry in
place, or add a new entry at the end. -/
def assocExtend : List (String × List String) → String → List String → List (String × List String)
  | [], k, vs => [(k, vs)]
  | (k2, v2) :: rest, k, vs =>
    if k2 = k then (k2, v2 ++ vs) :: rest else (k2, v2) :: assocExtend rest k vs

/-- The `role_points` dict and `all_points` list built by the extraction
loop of `check_consensus_rule_based`. -/
def buildRolePointsAll (messages : List MsgD) :
    List (String × List String) × List String :=
  messages.foldl
    (fun acc m =>
      let pts := extractKeyPoints m.content 10
      (assocExtend acc.1 m.role pts, acc.2 ++ pts))
    ([], [])

/-- The number of distinct speaking roles (`total_roles`). -/
def totalRoles (messages : List MsgD) : Nat := (buildRolePointsAll messages).1.length

/-- The point groups paired with the number of roles that produced a
similar point, sorted by role count in stable descending order
(`group_role_counts` after the sort). -/
def sortedGroupCounts (messages : List MsgD) : List (List String × Nat) :=
  let rp := (buildRolePointsAll messages).1
  let groups := groupSimilarPoints (buildRolePointsAll messages).2
  let counts := groups.map (fun g =>
    (g, (rp.filter (fun rpts =>
      rpts.2.any (fun rolePoint =>
        g.any (fun groupPoint => decide (mkRat 1 5 < calcSim rolePoint groupPoint))))).length))
  stableSortDesc (fun q => q.2) counts

/-- `check_consensus_rule_based(messages, topic, threshold)`: special
cases, the fewer-than-3-messages cutoff, extraction and grouping, the
agreement-ratio decision with the topic-relevance veto, and the
inconclusive (`None`) band. An empty group list yields `False` both at
the `if not point_groups` check and at the final fallthrough. -/
def checkConsensusRuleBased (messages : List MsgD) (topic : String) (threshold : ℚ) :
    Option Bool :=
  if partialAgreementSpecialCase messages threshold then some false
  else if messages.length < 3 then some false
  else
    match sortedGroupCounts messages with
    | [] => some false
    | (topGroup, topCount) :: _ =>
      let ratio := mkRat (topCount : Int) (totalRoles messages)
      if threshold ≤ ratio then
        if topic ≠ "" && !(isTopicRelevant topic topGroup) then some false
        else some true
      else if ratio < mkRat 1 2 then some false
      else none
theorem filter_perm_split {α : Type} (l : List α) (p q : α → Bool) :
    (l.filter p).Perm
      ((l.filter fun a => p a && q a) ++ (l.filter fun a => p a && !q a)) := by
  induction l with
  | nil => simp
  | cons a l ih =>
    cases hp : p a <;> cases hq : q a <;>
      simp [List.filter_cons, hp, hq] <;>
      first
      | exact ih
      | exact ih.cons a
      | exact (ih.cons a).trans List.perm_middle.symm

theorem nodup_fst_inj {α β : Type} {pts : List (α × β)}
    (hnd : (pts.map Prod.fst).Nodup) {x y : α × β}
    (hx : x ∈ pts) (hy : y ∈ pts) (hfst : x.1 = y.1) : x = y :=
  List.inj_on_of_nodup_map hnd hx hy hfst

theorem filter_fst_eq_single {β : Type} (B : Nat → Bool) (i : Nat) (p : β) :
    ∀ (pts : List (Nat × β)), (pts.map Prod.fst).Nodup → (i, p) ∈ pts → B i = true →
      pts.filter (fun q => B q.1 && decide (q.1 = i)) = [(i, p)] := by
  intro pts
  induction pts with
  | nil => intro _ h; simp at h
  | cons a rest ih =>
    intro hnd hmem hB
    simp only [List.map_cons, List.nodup_cons] at hnd
    by_cases hai : a.1 = i
    · have ha : a = (i, p) := by
        rcases List.mem_cons.mp hmem with h | h
        · exact h.symm
        · exact absurd (by rw [hai]; exact List.mem_map.mpr ⟨(i, p), h, rfl⟩) hnd.1
      subst ha
      have hrest : rest.filter (fun q => B q.1 && decide (q.1 = i)) = [] := by
        apply List.filter_eq_nil_iff.mpr
        intro q hq
        have hqi : q.1 ≠ i := by
          intro h
          exact hnd.1 (List.mem_map.mpr ⟨q, hq, h⟩)
        simp [hqi]
      simp [List.filter_cons, hB, hrest]
    · have hmem2 : (i, p) ∈ rest := by
        rcases List.mem_cons.mp hmem with h | h
        · exact absurd (congrArg Prod.fst h).symm hai
        · exact h
      rw [List.filter_cons, if_neg (by simp [hai])]
      exact ih hnd.2 hmem2 hB

theorem gspGo_group_ne_nil (pts : List (Nat × String)) :
    ∀ (l : List (Nat × String)) (used : List Nat),
      ∀ g ∈ gspGo pts l used, g ≠ [] := by
  intro l
  induction l with
  | nil => intro used g hg; simp [gspGo] at hg
  | cons q rest ih =>
    intro used g hg
    rw [gspGo] at hg
    by_cases hq : q.1 ∈ used
    · rw [if_pos hq] at hg
      exact ih used g hg
    · rw [if_neg hq] at hg
      rcases List.mem_cons.mp hg with h | h
      · subst h; simp
      · exact ih _ g h

theorem gspGo_join_perm (pts : List (Nat × String))
    (hnd : (pts.map Prod.fst).Nodup) :
    ∀ (l : List (Nat × String)) (used : List Nat),
      l.Sublist pts →
      (∀ q ∈ pts, q.1 ∉ used → q ∈ l) →
      ((gspGo pts l used).flatten).Perm
        (pts.filter (fun q => !(used.contains q.1))) := by
  intro l
  induction l with
  | nil =>
    intro used _ hcover
    have hnil : pts.filter (fun q => !(used.contains q.1)) = [] :=
      List.filter_eq_nil_iff.mpr (fun q hq hqc =>
        absurd (hcover q hq (by simpa using hqc)) (List.not_mem_nil q))
    rw [hnil]
    simp [gspGo]
  | cons q rest ih =>
    intro used hsub hcover
    have hsubr : rest.Sublist pts := List.sublist_of_cons_sublist hsub
    have hqpts : q ∈ pts := hsub.subset (List.mem_cons_self q rest)
    rw [gspGo]
    by_cases hq : q.1 ∈ used
    · rw [if_pos hq]
      apply ih used hsubr
      intro r hr hru
      rcases List.mem_cons.mp (hcover r hr hru) with h | h
      · exact absurd (show r.1 ∈ used by rw [h]; exact hq) hru
      · exact h
    · rw [if_neg hq]
      set φ : Nat × String → Bool := fun r =>
        !(used.contains r.1) && !(r.1 = q.1 : Bool) && decide (mkRat 1 5 < calcSim q.2 r.2)
        with hφ
      set xs := pts.filter φ with hxs
      set used2 := used ++ q.1 :: xs.map (fun r => r.1) with hused2
      have hused2mem : ∀ n : Nat,
          n ∈ used2 ↔ n ∈ used ∨ n = q.1 ∨ n ∈ xs.map (fun r => r.1) := by
        intro n; simp [hused2]
      have hcover2 : ∀ r ∈ pts, r.1 ∉ used2 → r ∈ rest := by
        intro r hr hru2
        have hru : r.1 ∉ used := fun h => hru2 ((hused2mem r.1).mpr (Or.inl h))
        have hrq : r.1 ≠ q.1 := fun h => hru2 ((hused2mem r.1).mpr (Or.inr (Or.inl h)))
        rcases List.mem_cons.mp (hcover r hr hru) with h | h
        · exact absurd (congrArg Prod.fst h) hrq
        · exact h
      have hIH := ih used2 hsubr hcover2
      have hsplit1 := filter_perm_split pts (fun r => !(used.contains r.1))
        (fun r => decide (r.1 = q.1))
      have hsplit2 := filter_perm_split pts
        (fun r => !(used.contains r.1) && !(decide (r.1 = q.1)))
        (fun r => (xs.map (fun r => r.1)).contains r.1)
      have hone : pts.filter
          (fun r => !(used.contains r.1) && decide (r.1 = q.1)) = [q] := by
        have := filter_fst_eq_single (fun n => !(used.contains n)) q.1 q.2 pts hnd
          (by simpa using hqpts) (by simpa using hq)
        simpa using this
      have hxseq : pts.filter
          (fun r => (!(used.contains r.1) && !(decide (r.1 = q.1))) &&
            (xs.map (fun r => r.1)).contains r.1) = xs := by
        conv_rhs => rw [hxs]
        apply List.filter_congr
        intro r hr
        by_cases h1 : r.1 ∈ used
        · simp [hφ, h1]
        · by_cases h2 : r.1 = q.1
          · simp [hφ, h2]
          · by_cases h3 : mkRat 1 5 < calcSim q.2 r.2
            · have hrin : r ∈ xs := by
                rw [hxs]
                exact List.mem_filter.mpr ⟨hr, by simp [hφ, h1, h2, h3]⟩
              have hmm : r.1 ∈ xs.map (fun r => r.1) := List.mem_map.mpr ⟨r, hrin, rfl⟩
              simp [hφ, h1, h2, h3, hmm]
            · have hnm : r.1 ∉ xs.map (fun r => r.1) := by
                intro hmm
                rcases List.mem_map.mp hmm with ⟨r2, hr2, hfst⟩
                have hr2pts : r2 ∈ pts := (List.mem_filter.mp (by rw [← hxs]; exact hr2)).1
                have hφr2 : φ r2 = true := (List.mem_filter.mp (by rw [← hxs]; exact hr2)).2
                have hr2r : r2 = r := nodup_fst_inj hnd hr2pts hr hfst
                rw [hr2r, hφ] at hφr2
                simp only [Bool.and_eq_true, decide_eq_true_eq] at hφr2
                exact absurd hφr2.2 h3
              simp [hφ, h1, h2, h3, hnm]
      have hrest : pts.filter
          (fun r => (!(used.contains r.1) && !(decide (r.1 = q.1))) &&
            !((xs.map (fun r => r.1)).contains r.1)) =
          pts.filter (fun r => !(used2.contains r.1)) := by
        apply List.filter_congr
        intro r _
        have hiff := hused2mem r.1
        by_cases h1 : r.1 ∈ used
        · have hm : r.1 ∈ used2 := hiff.mpr (Or.inl h1)
          simp [h1, hm]
        · by_cases h2 : r.1 = q.1
          · have hm : r.1 ∈ used2 := hiff.mpr (Or.inr (Or.inl h2))
            have hm2 : q.1 ∈ used2 := h2 ▸ hm
            simp [h1, h2, hm, hm2]
          · by_cases h3 : r.1 ∈ xs.map (fun r => r.1)
            · have hm : r.1 ∈ used2 := hiff.mpr (Or.inr (Or.inr h3))
              simp [h1, h2, h3, hm]
            · have hm : r.1 ∉ used2 := by
                intro hmem
                rcases hiff.mp hmem with h | h | h
                exacts [h1 h, h2 h, h3 h]
              simp [h1, h2, h3, hm]
      have hF : (pts.filter (fun r => !(used.contains r.1))).Perm
          (q :: (xs ++ pts.filter (fun r => !(used2.contains r.1)))) := by
        have h2 : (pts.filter
            (fun r => !(used.contains r.1) && !(decide (r.1 = q.1)))).Perm
            (xs ++ pts.filter (fun r => !(used2.contains r.1))) := by
          rw [← hxseq, ← hrest]
          exact hsplit2
        refine hsplit1.trans ?_
        rw [hone]
        exact (h2.append_left [q]).trans (by simp)
      have hL : (((q :: xs) :: gspGo pts rest used2).flatten).Perm
          (q :: (xs ++ pts.filter (fun r => !(used2.contains r.1)))) := by
        rw [List.flatten_cons]
        have := (hIH.append_left xs).cons q
        simpa using this
      exact hL.trans hF.symm

/-- C9: `group_similar_points` returns a partition of its input: the
returned groups are non-empty, their concatenation is a permutation of
the input point list (every input point lands in exactly one group,
counting multiplicity), and the empty input yields no groups. -/
theorem group_similar_points_partition (points : List String) :
    groupSimilarPoints [] = [] ∧
    ((groupSimilarPoints points).flatten).Perm points ∧
    ∀ g ∈ groupSimilarPoints points, g ≠ [] := by
  refine ⟨rfl, ?_, ?_⟩
  · by_cases hpts : points.isEmpty
    · have : points = [] := by simpa [List.isEmpty_iff] using hpts
      subst this
      simp [groupSimilarPoints]
    · rw [groupSimilarPoints, if_neg (by simp [hpts])]
      have hnd : (points.enum.map Prod.fst).Nodup := by
        rw [List.enum_map_fst]; exact List.nodup_range _
      have h := gspGo_join_perm points.enum hnd points.enum []
        (List.Sublist.refl _) (fun q hq _ => hq)
      have hfilter : points.enum.filter (fun q => !(([] : List Nat).contains q.1)) =
          points.enum :=
        List.filter_eq_self.mpr (fun a _ => by simp)
      rw [hfilter] at h
      have hjoin : ((gspGo points.enum points.enum []).map
            (fun g => g.map (fun q => q.2))).flatten
          = ((gspGo points.enum points.enum []).flatten).map (fun q => q.2) :=
        (List.map_flatten _ _).symm
      rw [hjoin]
      have := h.map (fun q : Nat × String => q.2)
      simpa [List.enum_map_snd] using this
  · intro g hg
    rw [groupSimilarPoints] at hg
    by_cases hpts : points.isEmpty
    · simp [hpts] at hg
    · rw [if_neg (by simp [hpts])] at hg
      rcases List.mem_map.mp hg with ⟨g2, hg2, rfl⟩
      have := gspGo_group_ne_nil points.enum points.enum [] g2 hg2
      simpa using this

/-- C7: the topic-relevance gate of `check_consensus_rule_based`: when
the top point group meets the agreement threshold but shares no lexical
word with a non-empty topic, the detected consensus is vetoed and the
result is `False`. -/
theorem consensus_topic_veto (messages : List MsgD) (topic : String)
    (threshold : ℚ) (g : List String) (c : Nat)
    (hhead : (sortedGroupCounts messages).head? = some (g, c))
    (hratio : threshold ≤ mkRat (c : Int) (totalRoles messages))
    (htopic : topic ≠ "")
    (hveto : isTopicRelevant topic g = false) :
    checkConsensusRuleBased messages topic threshold = some false := by
  rcases hsg : sortedGroupCounts messages with _ | ⟨⟨g2, c2⟩, tail⟩
  · rw [hsg] at hhead; simp at hhead
  · rw [hsg] at hhead
    simp only [List.head?_cons, Option.some.injEq, Prod.mk.injEq] at hhead
    obtain ⟨rfl, rfl⟩ := hhead
    rw [checkConsensusRuleBased]
    by_cases h1 : partialAgreementSpecialCase messages threshold
    · simp [h1]
    · by_cases h2 : messages.length < 3
      · simp [h1, h2]
      · simp only [h1, h2, if_false, hsg]
        rw [if_pos hratio]
        simp [htopic, hveto]

set_option maxRecDepth 100000 in
/-- Witness for the topic veto: three roles agreeing on the same
performance point, with a topic sharing no word with it. -/
theorem consensus_topic_veto_witness :
    (sortedGroupCounts
        [⟨"a", "performance is key"⟩, ⟨"b", "performance is key"⟩,
         ⟨"c", "performance is key"⟩]).head? =
      some (["performance is key", "performance is key", "performance is key"], 3) ∧
    checkConsensusRuleBased
      [⟨"a", "performance is key"⟩, ⟨"b", "performance is key"⟩,
       ⟨"c", "performance is key"⟩] "zebra" (mkRat 7 10) = some false := by
  constructor
  · decide
  · exact consensus_topic_veto
      [⟨"a", "performance is key"⟩, ⟨"b", "performance is key"⟩,
       ⟨"c", "performance is key"⟩] "zebra" (mkRat 7 10)
      ["performance is key", "performance is key", "performance is key"] 3
      (by decide) (by decide) (by decide) (by decide)

/-! ## Character-level sequence similarity
Embedding of `difflib.SequenceMatcher.ratio()` as used by
`DiscussionEngine._calculate_text_similarity`. The texts compared are
far below the autojunk threshold (200 characters), so the junk set is
empty and `find_longest_match` reduces to: the longest matching block,
ties broken by the smallest index in `a`, then the smallest index in
`b`. The recursion of `get_matching_blocks` is expressed with an
explicit fuel equal to the length of `a`, which always suffices because
every recursive call works on a strictly shorter slice of `a`. -/

/-- Length of the common run of two lists starting at their heads. -/
def commonRun : List Char → List Char → Nat
  | a :: as, b :: bs => if a = b then commonRun as bs + 1 else 0
  | _, _ => 0

/-- The longest matching block `(i, j, size)` of two sequences: maximal
size, ties broken by least `i`, then least `j` (the choice
`find_longest_match` makes when the junk set is empty). -/
def bestBlock (a b : List Char) : Nat × Nat × Nat :=
  (List.range a.length).foldl
    (fun best i =>
      (List.range b.length).foldl
        (fun best2 j =>
          let k := commonRun (a.drop i) (b.drop j)
          if best2.2.2 < k then (i, j, k) else best2)
        best)
    (0, 0, 0)

/-- Total size of all matching blocks (`get_matching_blocks`): recurse
on the slices left and right of the longest match. -/
def matchTotalFuel : Nat → List Char → List Char → Nat
  | 0, _, _ => 0
  | fuel + 1, a, b =>
    let ijk := bestBlock a b
    if ijk.2.2 = 0 then 0
    else
      matchTotalFuel fuel (a.take ijk.1) (b.take ijk.2.1) + ijk.2.2 +
        matchTotalFuel fuel (a.drop (ijk.1 + ijk.2.2)) (b.drop (ijk.2.1 + ijk.2.2))

/-- Total matched characters between two sequences. -/
def matchTotal (a b : List Char) : Nat := matchTotalFuel a.length a b

/-- `SequenceMatcher.ratio()`: `2*M / (len(a)+len(b))`, and 1 when both
sequences are empty (`_calculate_ratio`). -/
def seqRatio (a b : List Char) : ℚ :=
  if a.length + b.length = 0 then 1
  else mkRat (2 * matchTotal a b : Int) (a.length + b.length)

/-- `DiscussionEngine._calculate_text_similarity`: lowercase, strip,
collapse whitespace runs, then the difflib ratio. -/
def calcTextSim (text1 text2 : String) : ℚ :=
  seqRatio (collapseWs (stripChars (text1.data.map Char.toLower)))
    (collapseWs (stripChars (text2.data.map Char.toLower)))

/-! ## Discussion engine: hierarchy data, deadlock detection and
resolution, escalation, speaker selection. -/

/-- One entry of the engine's role hierarchy map (the `role_obj`
back-reference is not read by the embedded operations and is omitted). -/
structure HierInfo where
  level : Option Nat
  superior : String
  subordinates : List String
deriving DecidableEq, Repr

/-- The engine configuration fields read by the embedded operations.
`use_streaming` only changes console printing and which LLM entry point
produces the reply (the reply itself is the oracle input), so it is
omitted. -/
structure Engine where
  topic : String
  roles : List Role
  maxTurns : Nat
  deadlockDetectionEnabled : Bool
  deadlockThreshold : ℚ
  hierarchicalMode : Bool
  hierarchyMap : List (String × HierInfo)
deriving Repr

/-- Hierarchy-map lookup. -/
def lookupHier (E : Engine) (r : String) : Option HierInfo := dictGet E.hierarchyMap r

/-- `self.role_hierarchy_map.get(role_name, {}).get("superior", "")`. -/
def superiorOf (E : Engine) (r : String) : String :=
  match lookupHier E r with
  | some info => info.superior
  | none => ""

/-- `DiscussionEngine._extract_key_points`: split on `[.!?]\s+`, keep
stripped sentences longer than 20 characters that do not start with
`"I "`. `skipping` marks being inside the whitespace run of a
separator. -/
def engSplitGo : List Char → Bool → List Char → List (List Char)
  | [], _, acc => [acc.reverse]
  | c :: rest, skipping, acc =>
    if skipping && pyWs c then engSplitGo rest true acc
    else if (c = '.' || c = '!' || c = '?') &&
        (match rest with | r :: _ => pyWs r | [] => false) then
      acc.reverse :: engSplitGo rest true []
    else engSplitGo rest false (c :: acc)

/-- Key points of the engine deadlock detector. -/
def extractKeyPointsEngine (text : String) : List String :=
  let sentences := (engSplitGo text.data false []).map String.mk
  ((sentences.map pyStrip).filter
    (fun st => 20 < st.length && !(matchesAt "I ".data st.data)))

/-- The `role_messages` dict of `detect_deadlock`: contents of the
recent messages grouped by role in encounter order. -/
def buildRoleMessages (msgs : List Msg) : List (String × List String) :=
  msgs.foldl (fun d m => assocExtend d m.role [m.content]) []

/-- Consecutive pairs of a list. -/
def consecPairs {α : Type} : List α → List (α × α)
  | a :: b :: rest => (a, b) :: consecPairs (b :: rest)
  | _ => []

/-- First deadlock rule: some role has two consecutive recent messages
whose similarity exceeds the deadlock threshold. -/
def hasRepetitiveRole (threshold : ℚ) (roleMsgs : List (String × List String)) : Bool :=
  roleMsgs.any (fun rm =>
    (consecPairs rm.2).any (fun pq => decide (threshold < calcTextSim pq.1 pq.2)))

/-- Second deadlock rule: more than 70 percent of the substantial
points in the recent window repeat a point from up to two messages
earlier (similarity above 0.7). -/
def keyPointsRepetition (recent : List Msg) : Bool :=
  if 4 ≤ recent.length then
    let kps := recent.map (fun m => extractKeyPointsEngine m.content)
    let total : Nat := (kps.map (fun points => points.length)).sum
    let repeated : Nat := ((kps.enum.map (fun ip =>
      (ip.2.filter (fun point =>
        ((List.range ip.1).drop (ip.1 - 2)).any (fun j =>
          (kps.getD j []).any (fun prev =>
            decide (mkRat 7 10 < calcTextSim point prev))))).length)).sum : Nat)
    decide (0 < total) && decide (mkRat 7 10 < mkRat (repeated : Int) total)
  else false

/-- Index of the last `"System"` message whose lowercased content
contains `"deadlock"` (the `last_resolution_index` computation;
`none` models Python's `-1` default). -/
def lastSystemDeadlockIdx (msgs : List Msg) : Option Nat :=
  (((msgs.enum.filter (fun im =>
      im.2.role = "System" && strHas "deadlock" (pyLower im.2.content)))).map
    (fun im => im.1)).getLast?

/-- `DiscussionEngine.detect_deadlock` on the loaded state. -/
def detectDeadlock (E : Engine) (store : DState) : Bool :=
  let msgs := store.messages
  if msgs.length < 4 then false
  else if (store.deadlock_detected && store.deadlock_resolution_applied) &&
      (match lastSystemDeadlockIdx msgs with
       | some i => msgs.length - i < 4
       | none => false) then false
  else
    let recent := msgs.drop (msgs.length - min 6 msgs.length)
    if hasRepetitiveRole E.deadlockThreshold (buildRoleMessages recent) then true
    else keyPointsRepetition recent

/-- Join a list of strings with a separator (Python `sep.join`). -/
def joinSep (sep : String) : List String → String
  | [] => ""
  | [x] => x
  | x :: rest => x ++ sep ++ joinSep sep rest

/-- `DiscussionEngine._introduce_new_perspective`: ask the LLM for a new
angle and wrap it in a `"System (Mediator)"` message. -/
def introduceNewPerspective (llm : String → String) (store : DState) : Msg :=
  let prompt :=
    "The discussion on " ++ sq ++ store.topic ++ sq ++ " appears to be in a deadlock. " ++
    "Participants are repeating their positions without making progress. " ++
    "Please suggest a completely new perspective or angle that hasn" ++ sq ++
    "t been considered yet. " ++
    "This should be a thoughtful, neutral contribution that could help move the discussion forward."
  { role := "System (Mediator)",
    content := "I notice this discussion may be reaching a deadlock. Let me introduce a new perspective: "
      ++ llm prompt,
    metadata := [], timestamp := 0 }

/-- `DiscussionEngine._suggest_compromise`: ask the LLM for a compromise
over the last 10 messages. -/
def suggestCompromise (llm : String → String) (store : DState) : Msg :=
  let recentMessages := store.messages.drop (store.messages.length - min 10 store.messages.length)
  let recentContent := joinSep "\n" (recentMessages.map (fun m => m.role ++ ": " ++ m.content))
  let prompt :=
    "The discussion on " ++ sq ++ store.topic ++ sq ++ " appears to be in a deadlock. " ++
    "Here are the recent messages:\n\n" ++ recentContent ++ "\n\n" ++
    "Based on these messages, please suggest a thoughtful compromise that acknowledges " ++
    "the valid points from different perspectives and offers a middle ground. " ++
    "This should be a balanced suggestion that respects all viewpoints."
  { role := "System (Mediator)",
    content := "I notice we may be at an impasse. Let me suggest a possible compromise: " ++ llm prompt,
    metadata := [], timestamp := 0 }

/-- `DiscussionEngine._reframe_discussion`: ask the LLM to reframe the
positions into underlying interests. -/
def reframeDiscussion (llm : String → String) (store : DState) : Msg :=
  let prompt :=
    "The discussion on " ++ sq ++ store.topic ++ sq ++ " appears to be in a deadlock. " ++
    "Please reframe the discussion by identifying the underlying interests and values " ++
    "rather than the stated positions. What are the deeper needs or concerns that " ++
    "might not be explicitly stated? How could the discussion be restructured to " ++
    "address these underlying interests?"
  { role := "System (Mediator)",
    content := "I notice we may be talking past each other. Let me try to reframe this discussion: "
      ++ llm prompt,
    metadata := [], timestamp := 0 }

/-- `DiscussionEngine.resolve_deadlock`: pick the strategy by
`turn % 3`, append its mediator message, set both deadlock flags, and
persist; the returned state is exactly the persisted one. The LLM
collaborator is a total function, so the message is produced and
appended even when generation fails (the failure is an error string in
the content). -/
def resolveDeadlock (llm : String → String) (store : DState) : DState × Msg :=
  let strategies := [introduceNewPerspective, suggestCompromise, reframeDiscussion]
  let resolutionMessage :=
    (strategies.getD (store.turn % strategies.length) introduceNewPerspective) llm store
  ({ store with
      messages := store.messages ++ [resolutionMessage],
      deadlock_detected := true,
      deadlock_resolution_applied := true },
    resolutionMessage)

/-- The escalation keyword lexicon of `detect_escalation`. -/
def escalationKeywords : List String :=
  ["escalate", "refer to", "defer to", "beyond my authority",
   "need approval", "higher decision", "superior", "manager"]

/-- `DiscussionEngine.detect_escalation`: in hierarchical mode, the last
message of the role contains an escalation keyword and the role has a
recorded superior. (In the source both the superior-mentioned and the
generic branch `return True`, so the superior check collapses to
non-emptiness.) -/
def detectEscalation (E : Engine) (store : DState) (roleName : String) : Bool :=
  if !E.hierarchicalMode then false
  else if store.messages.isEmpty then false
  else
    match (store.messages.filter (fun m => m.role = roleName)).getLast? with
    | none => false
    | some lastMessage =>
      let messageLower := pyLower lastMessage.content
      escalationKeywords.any (fun kw =>
        strHas kw messageLower && !(superiorOf E roleName = "" : Bool))

/-- The `"System"` notice emitted by `handle_escalation`. -/
def escalationNotice (roleName sup : String) : Msg :=
  { role := "System",
    content := "The " ++ roleName ++ " has escalated this matter to their superior, " ++ sup ++ ".",
    metadata := [], timestamp := 0 }

/-- Result of `handle_escalation`: the (possibly) saved state, the
next-speaker override, the appended messages and the `escalated` flag
of the returned dict. -/
structure EscalationResult where
  state : DState
  override : Option String
  appended : List Msg
  escalated : Bool
deriving Repr

/-- `DiscussionEngine.handle_escalation`. -/
def handleEscalation (E : Engine) (ov : Option String) (store : DState)
    (roleName : String) : EscalationResult :=
  if !E.hierarchicalMode then ⟨store, ov, [], false⟩
  else
    match lookupHier E roleName with
    | none => ⟨store, ov, [], false⟩
    | some info =>
      if info.superior = "" then ⟨store, ov, [], false⟩
      else
        let notice := escalationNotice roleName info.superior
        ⟨{ store with messages := store.messages ++ [notice] },
          some info.superior, [notice], true⟩

/-- Placeholder role (`next(...)` on an empty iterator cannot occur in
the runs the theorems quantify over; the default keeps the function
total). -/
def defaultRole : Role := ⟨"", "", none, "", []⟩

/-- `role.hierarchy_level or 999`: Python `or` treats both a missing
level and level 0 as falsy. -/
def levelOr999 (r : Role) : Nat :=
  match r.hierarchy_level with
  | some l => if l = 0 then 999 else l
  | none => 999

/-- Stable ascending insertion by key (Python `sorted(key=...)`). -/
def insAscBy {α : Type} (key : α → Nat) (x : α) : List α → List α
  | [] => [x]
  | y :: ys => if key x < key y then x :: y :: ys else y :: insAscBy key x ys

/-- Stable ascending sort by key. -/
def stableSortAsc {α : Type} (key : α → Nat) (l : List α) : List α :=
  l.foldl (fun acc x => insAscBy key x acc) []

/-- Flat-mode speaker for a given turn counter:
`roles[turn_count % len(roles)]`. -/
def flatSpeakerName (E : Engine) (t : Nat) : String :=
  (E.roles.getD (t % E.roles.length) defaultRole).role

/-- The non-override speaker selection of `get_next_speaker`: flat
round-robin, first-round hierarchy order, then preference for roles
that have not spoken in the last `len(roles)` messages. -/
def selectSpeaker (E : Engine) (store : DState) : String :=
  if !E.hierarchicalMode then flatSpeakerName E store.turn
  else if store.turn < E.roles.length then
    ((stableSortAsc levelOr999 E.roles).getD store.turn defaultRole).role
  else
    let roleNames := E.roles.map (fun r => r.role)
    let recentSpeakers :=
      if E.roles.length ≤ store.messages.length then
        ((store.messages.drop (store.messages.length - E.roles.length)).map
          (fun m => m.role)).filter (fun r => roleNames.contains r)
      else []
    let availableRoles := E.roles.filter (fun r => !(recentSpeakers.contains r.role))
    if availableRoles.isEmpty then flatSpeakerName E store.turn
    else ((stableSortAsc levelOr999 availableRoles).getD 0 defaultRole).role

/-- `DiscussionEngine.get_next_speaker` on the loaded state: a pending
escalation override takes precedence and is consumed; otherwise the
normal selection runs (and the override stays unset). -/
def getNextSpeaker (E : Engine) (ov : Option String) (store : DState) :
    String × Option String :=
  match ov with
  | some next => (next, none)
  | none => (selectSpeaker E store, none)

/-- Engine used for the deadlock re-detection evaluation: two flat
roles, deadlock detection enabled at the default 0.85 threshold. -/
def dlBugEngine : Engine :=
  ⟨"t", [⟨"role1", "", none, "", []⟩, ⟨"role2", "", none, "", []⟩],
    100, true, mkRat 17 20, false, []⟩

/-- State in which a deadlock was already flagged and resolved: the
mediator message sits at index 1 and only two messages were appended
after it, while `role1` keeps repeating the same text verbatim. -/
def dlBugState : DState :=
  ⟨"t", dlBugEngine.roles,
    [⟨"role1", "same view", [], 0⟩,
     ⟨"System (Mediator)",
       "I notice this discussion may be reaching a deadlock. Let me introduce a new perspective: X",
       [], 0⟩,
     ⟨"role1", "same view", [], 0⟩,
     ⟨"role2", "ok", [], 0⟩],
    "", 5, none, true, true⟩

set_option maxRecDepth 100000 in
/-- C3: deadlock re-detection is NOT suppressed after a resolution. In
`dlBugState` a resolution was applied, the last mediator message is
followed by only 2 further messages (fewer than 4), and repetition
continues — the claim (and the comments in `detect_deadlock` itself)
say detection must return `False` here, but it returns `True`: the
suppression index only scans messages authored exactly `"System"`
containing "deadlock", while mediator messages are authored
`"System (Mediator)"`, so `last_resolution_index` stays `-1` and the
suppression branch is dead code. -/
theorem deadlock_suppression_dead_code :
    dlBugState.deadlock_detected = true ∧
    dlBugState.deadlock_resolution_applied = true ∧
    (dlBugState.messages.getD 1 ⟨"", "", [], 0⟩).role = "System (Mediator)" ∧
    dlBugState.messages.length - 2 < 4 ∧
    lastSystemDeadlockIdx dlBugState.messages = none ∧
    detectDeadlock dlBugEngine dlBugState = true := by
  refine ⟨rfl, rfl, rfl, by decide, by decide, by decide⟩

/-- C4: `resolve_deadlock` appends exactly one `"System (Mediator)"`
message, sets both deadlock flags, persists the result (the returned
state is the saved one), and selects the strategy by `turn_count % 3`;
the LLM collaborator is a total function, so the append happens for
every `llm`, including one that returns an error string. -/
theorem resolve_deadlock_one_mediator_message (llm : String → String) (store : DState) :
    (resolveDeadlock llm store).1 =
      { store with
          messages := store.messages ++ [(resolveDeadlock llm store).2],
          deadlock_detected := true,
          deadlock_resolution_applied := true } ∧
    ((resolveDeadlock llm store).2).role = "System (Mediator)" ∧
    (resolveDeadlock llm store).2 =
      (match store.turn % 3 with
       | 0 => introduceNewPerspective llm store
       | 1 => suggestCompromise llm store
       | _ => reframeDiscussion llm store) := by
  have h3 : store.turn % 3 < 3 := Nat.mod_lt _ (by omega)
  rcases hr : store.turn % 3 with _ | _ | _ | n
  · exact ⟨rfl, by simp [resolveDeadlock, hr, introduceNewPerspective], by simp [resolveDeadlock, hr]⟩
  · exact ⟨rfl, by simp [resolveDeadlock, hr, suggestCompromise], by simp [resolveDeadlock, hr]⟩
  · exact ⟨rfl, by simp [resolveDeadlock, hr, reframeDiscussion], by simp [resolveDeadlock, hr]⟩
  · omega

/-- C6: the escalation override is one-shot and takes precedence: when
the most recent message of a role with a recorded superior contains an
escalation keyword, `detect_escalation` fires, `handle_escalation`
appends one `"System"` notice and records the superior as the pending
next speaker, the next `get_next_speaker` call returns exactly that
superior and consumes the override, and a subsequent call runs the
normal selection. -/
theorem escalation_override_one_shot
    (E : Engine) (store st2 : DState) (ov : Option String) (r : String)
    (m : Msg) (sup : String)
    (hmode : E.hierarchicalMode = true)
    (hlast : (store.messages.filter (fun msg => msg.role = r)).getLast? = some m)
    (hkw : escalationKeywords.any (fun kw => strHas kw (pyLower m.content)) = true)
    (hsup : superiorOf E r = sup)
    (hne : sup ≠ "") :
    detectEscalation E store r = true ∧
    handleEscalation E ov store r =
      ⟨{ store with messages := store.messages ++ [escalationNotice r sup] },
        some sup, [escalationNotice r sup], true⟩ ∧
    getNextSpeaker E (some sup) st2 = (sup, none) ∧
    getNextSpeaker E none st2 = (selectSpeaker E st2, none) := by
  have hmsgs : store.messages.isEmpty = false := by
    cases hm : store.messages with
    | nil => rw [hm] at hlast; simp at hlast
    | cons a l => simp
  refine ⟨?_, ?_, rfl, rfl⟩
  · rw [detectEscalation, hmode]
    simp only [Bool.not_true, Bool.false_eq_true, if_false, hmsgs, hlast]
    rcases List.any_eq_true.mp hkw with ⟨kw, hkmem, hkin⟩
    apply List.any_eq_true.mpr
    exact ⟨kw, hkmem, by simp [hkin, hsup, hne]⟩
  · rw [handleEscalation, hmode]
    cases hl : lookupHier E r with
    | none =>
      exfalso
      rw [superiorOf, hl] at hsup
      exact hne hsup.symm
    | some info =>
      have his : info.superior = sup := by rw [superiorOf, hl] at hsup; exact hsup
      simp [hl, his, hne]

/-- Witness engine for the escalation scenarios: an Engineer reporting
to a Manager. -/
def escEngine : Engine :=
  ⟨"t", [⟨"Manager", "", some 1, "", ["Engineer"]⟩, ⟨"Engineer", "", some 2, "Manager", []⟩],
    100, false, mkRat 17 20, true,
    [("Manager", ⟨some 1, "", ["Engineer"]⟩), ("Engineer", ⟨some 2, "Manager", []⟩)]⟩

/-- Witness state: the Engineer just asked to escalate to their
manager. -/
def escState : DState :=
  ⟨"t", escEngine.roles,
    [⟨"Engineer", "I need to escalate this to my manager", [], 0⟩],
    "", 1, none, false, false⟩

/-- Witness for the escalation override: the Engineer's message fires
detection, the Manager becomes the pending speaker and the override is
consumed on use. -/
theorem escalation_override_one_shot_witness :
    detectEscalation escEngine escState "Engineer" = true ∧
    handleEscalation escEngine none escState "Engineer" =
      ⟨{ escState with
          messages := escState.messages ++ [escalationNotice "Engineer" "Manager"] },
        some "Manager", [escalationNotice "Engineer" "Manager"], true⟩ ∧
    getNextSpeaker escEngine (some "Manager") escState = ("Manager", none) ∧
    getNextSpeaker escEngine none escState = (selectSpeaker escEngine escState, none) :=
  escalation_override_one_shot escEngine escState escState none "Engineer"
    ⟨"Engineer", "I need to escalate this to my manager", [], 0⟩ "Manager"
    (by decide) (by decide) (by decide) (by decide) (by decide)

/-- C10: escalation never fires for a role with an empty or missing
superior entry: `detect_escalation` is `False` whatever that role wrote,
and `handle_escalation` reports `escalated = False` without appending a
message or setting a next-speaker override. -/
theorem no_escalation_without_superior
    (E : Engine) (store : DState) (ov : Option String) (r : String)
    (hsup : superiorOf E r = "") :
    detectEscalation E store r = false ∧
    handleEscalation E ov store r = ⟨store, ov, [], false⟩ := by
  constructor
  · rw [detectEscalation]
    split
    · rfl
    · split
      · rfl
      · split
        · rfl
        · simp [hsup]
  · rw [handleEscalation]
    split
    · rfl
    · cases hl : lookupHier E r with
      | none => simp
      | some info =>
        have his : info.superior = "" := by rw [superiorOf, hl] at hsup; exact hsup
        simp [his]

/-- Witness for escalation without a superior: a role whose map entry
has an empty superior asks to escalate, and nothing happens. -/
theorem no_escalation_without_superior_witness :
    detectEscalation escEngine escState "Manager" = false ∧
    handleEscalation escEngine none escState "Manager" = ⟨escState, none, [], false⟩ :=
  no_escalation_without_superior escEngine escState none "Manager" (by decide)

/-! ## The orchestration loop (`run_discussion`)
The loop is embedded with its exact data flow: `run_discussion` loads
the persisted state once into a local variable (`cur`) and saves it at
lines 877 and 890, while `resolve_deadlock`, `handle_escalation` and
`compress_context` each load a fresh copy from the store, mutate it and
save — so their appended messages live in the store until the next save
of the local state overwrites them. The model therefore carries the
pair of the loop-local state and the persisted store, plus the pending
next-speaker override. The speaker reply for each iteration is an
oracle input (`resp`), standing for the collaborator reply to the
role-specific prompt; the mediator text comes from the same total `llm`
function that `resolve_deadlock` uses. Console printing and the final
result record are not modelled (no claim mentions them). -/

/-- `DiscussionEngine.check_consensus`: `False` before one full round,
otherwise the rule-based decision over the full history at the default
0.7 threshold. -/
def checkConsensus (E : Engine) (store : DState) : Option Bool :=
  if store.turn < E.roles.length then some false
  else
    checkConsensusRuleBased (store.messages.map (fun m => ⟨m.role, m.content⟩))
      E.topic (mkRat 7 10)

/-- `DiscussionEngine.compress_context`: when more than 6 messages are
stored, replace the dropped prefix by the placeholder summary and keep
the most recent 6. -/
def compressContext (topic : String) (store : DState) : DState :=
  if 6 < store.messages.length then
    { store with
        summary := "Summary of " ++ toString (store.messages.length - 6) ++
          " previous messages about " ++ topic,
        messages := store.messages.drop (store.messages.length - 6) }
  else store

/-- The welcome `"System"` message emitted on a fresh discussion. -/
def welcomeMessage (E : Engine) : Msg :=
  { role := "System",
    content := "Welcome to the discussion on " ++ sq ++ E.topic ++ sq ++
      ". Participants: " ++ joinSep ", " (E.roles.map (fun r => r.role)) ++ ".",
    metadata := [], timestamp := 0 }

/-- The hierarchical-mode explanation message. -/
def hierarchyMessage : Msg :=
  { role := "System",
    content := "This discussion will follow a hierarchical structure where higher-ranking " ++
      "participants may have more authority in decision-making. Participants may " ++
      "escalate matters to their superiors when appropriate.",
    metadata := [], timestamp := 0 }

/-- The running pair of `run_discussion`: the loop-local state variable,
the persisted store, and the engine's pending next-speaker override. -/
structure RunSt where
  cur : DState
  store : DState
  override : Option String
deriving Repr

/-- Speaker choice of one loop iteration: hierarchical mode goes through
`get_next_speaker` on the freshly loaded store and resolves the name in
the role list; flat mode indexes the role list by the local turn
counter. -/
def chooseRole (E : Engine) (ov : Option String) (turn : Nat) (store1 : DState) :
    Role × Option String :=
  if E.hierarchicalMode then
    let no := getNextSpeaker E ov store1
    (((E.roles.find? (fun r => r.role = no.1)).getD defaultRole), no.2)
  else
    (E.roles.getD (turn % E.roles.length) defaultRole, ov)

/-- One iteration of the `run_discussion` while loop, returning the new
running pair and the messages appended during the iteration (mediator
message, speaker message, escalation notice, in order). -/
def loopIter (E : Engine) (llm : String → String) (resp : String) (s : RunSt) :
    RunSt × List Msg :=
  let dl :=
    if E.deadlockDetectionEnabled && detectDeadlock E s.store then
      let rm := resolveDeadlock llm s.store
      (rm.1, [rm.2])
    else (s.store, ([] : List Msg))
  let sel := chooseRole E s.override s.cur.turn dl.1
  let message : Msg := ⟨sel.1.role, resp, [], 0⟩
  let cur1 : DState :=
    { s.cur with messages := s.cur.messages ++ [message], turn := s.cur.turn + 1 }
  let er :=
    if E.hierarchicalMode && detectEscalation E cur1 sel.1.role then
      handleEscalation E sel.2 cur1 sel.1.role
    else ⟨cur1, sel.2, [], false⟩
  let c := checkConsensus E er.state
  let cur2 : DState := { cur1 with consensus_reached := c }
  let store5 :=
    if truthy c = false && cur2.turn % 3 = 0 then compressContext E.topic cur2 else cur2
  (⟨cur2, store5, er.override⟩, dl.2 ++ [message] ++ er.appended)

/-- The while loop of `run_discussion`: run while `turn < max_turns` and
the consensus flag is falsy; the fuel argument dominates the iteration
count (each iteration increments `turn`, so `max_turns` fuel always
suffices). `k` indexes the reply oracle. -/
def runLoop (E : Engine) (llm : String → String) (resp : Nat → String) :
    Nat → Nat → RunSt → RunSt × List Msg
  | 0, _, s => (s, [])
  | fuel + 1, k, s =>
    if s.cur.turn < E.maxTurns && !(truthy s.cur.consensus_reached) then
      let step := loopIter E llm (resp k) s
      let rest := runLoop E llm resp fuel (k + 1) step.1
      (rest.1, step.2 ++ rest.2)
    else (s, [])

/-- `DiscussionEngine.run_discussion` (without the final result record):
load the persisted state, emit the welcome (and hierarchy) message on a
fresh discussion, then run the loop. -/
def runDiscussion (E : Engine) (llm : String → String) (resp : Nat → String)
    (persisted : DState) : RunSt × List Msg :=
  let w :=
    if persisted.messages.isEmpty then
      let afterWelcome : DState :=
        { persisted with messages := persisted.messages ++ [welcomeMessage E] }
      if E.hierarchicalMode then
        ({ afterWelcome with messages := afterWelcome.messages ++ [hierarchyMessage] },
          [welcomeMessage E, hierarchyMessage])
      else (afterWelcome, [welcomeMessage E])
    else (persisted, ([] : List Msg))
  let s0 : RunSt := ⟨w.1, w.1, none⟩
  let run := runLoop E llm resp E.maxTurns 0 s0
  (run.1, w.2 ++ run.2)

/-- A message whose author is a participant role rather than the system
or the mediator. -/
def isParticipantMsg (m : Msg) : Bool :=
  !(m.role = "System" : Bool) && !(m.role = "System (Mediator)" : Bool)

/-- No participant role is named like the system or the mediator (the
two reserved author strings of the engine). -/
def roleNamesOk (E : Engine) : Prop :=
  ∀ r ∈ E.roles, r.role ≠ "System" ∧ r.role ≠ "System (Mediator)"

instance (E : Engine) : Decidable (roleNamesOk E) := by
  unfold roleNamesOk; infer_instance

theorem resolveDeadlock_msg_role (llm : String → String) (store : DState) :
    ((resolveDeadlock llm store).2).role = "System (Mediator)" := by
  have h3 : store.turn % 3 < 3 := Nat.mod_lt _ (by omega)
  rcases hr : store.turn % 3 with _ | _ | _ | n
  · simp [resolveDeadlock, hr, introduceNewPerspective]
  · simp [resolveDeadlock, hr, suggestCompromise]
  · simp [resolveDeadlock, hr, reframeDiscussion]
  · omega

theorem handleEscalation_appended_role (E : Engine) (ov : Option String)
    (store : DState) (r : String) :
    ∀ m ∈ (handleEscalation E ov store r).appended, m.role = "System" := by
  rw [handleEscalation]
  split
  · intro m hm; simp at hm
  · cases hl : lookupHier E r with
    | none => intro m hm; simp at hm
    | some info =>
      by_cases hs : info.superior = ""
      · intro m hm; simp [hs] at hm
      · intro m hm
        simp only [hs, if_false] at hm
        simp at hm
        subst hm
        rfl

theorem chooseRole_mem (E : Engine) (ov : Option String) (turn : Nat) (store1 : DState) :
    (chooseRole E ov turn store1).1 = defaultRole ∨ (chooseRole E ov turn store1).1 ∈ E.roles := by
  rw [chooseRole]
  split
  · cases hf : E.roles.find? (fun r => r.role = (getNextSpeaker E ov store1).1) with
    | none => left; simp [hf]
    | some r => right; simpa [hf] using List.mem_of_find?_eq_some hf
  · by_cases hlt : turn % E.roles.length < E.roles.length
    · right
      simp only [List.getD_eq_getElem E.roles defaultRole hlt]
      exact List.getElem_mem hlt
    · left
      exact List.getD_eq_default E.roles defaultRole (by omega)

theorem chooseRole_name_ok (E : Engine) (ov : Option String) (turn : Nat)
    (store1 : DState) (h : roleNamesOk E) :
    (chooseRole E ov turn store1).1.role ≠ "System" ∧
    (chooseRole E ov turn store1).1.role ≠ "System (Mediator)" := by
  rcases chooseRole_mem E ov turn store1 with hd | hm
  · rw [hd]; exact ⟨by simp [defaultRole], by simp [defaultRole]⟩
  · exact h _ hm

theorem filter_participant_nil (l : List Msg)
    (h : ∀ m ∈ l, m.role = "System" ∨ m.role = "System (Mediator)") :
    l.filter isParticipantMsg = [] := by
  apply List.filter_eq_nil_iff.mpr
  intro m hm
  rcases h m hm with h2 | h2 <;> simp [isParticipantMsg, h2]

theorem loopIter_turn (E : Engine) (llm : String → String) (resp : String) (s : RunSt) :
    (loopIter E llm resp s).1.cur.turn = s.cur.turn + 1 := rfl

theorem loopIter_trace (E : Engine) (llm : String → String) (resp : String)
    (s : RunSt) (h : roleNamesOk E) :
    (loopIter E llm resp s).2.filter isParticipantMsg =
      [⟨(chooseRole E s.override s.cur.turn
          (if E.deadlockDetectionEnabled && detectDeadlock E s.store then
            (resolveDeadlock llm s.store).1 else s.store)).1.role, resp, [], 0⟩] := by
  rw [loopIter]
  simp only []
  rw [List.filter_append, List.filter_append]
  have hdl : (if E.deadlockDetectionEnabled && detectDeadlock E s.store then
      ((resolveDeadlock llm s.store).1, [(resolveDeadlock llm s.store).2])
      else (s.store, ([] : List Msg))).2.filter isParticipantMsg = [] := by
    split
    · exact filter_participant_nil _ (by
        intro m hm
        simp at hm
        subst hm
        exact Or.inr (resolveDeadlock_msg_role llm s.store))
    · rfl
  have hesc : ∀ (ovx : Option String) (curx : DState) (rx : String),
      ((if E.hierarchicalMode && detectEscalation E curx rx then
        handleEscalation E ovx curx rx
        else ⟨curx, ovx, [], false⟩ : EscalationResult)).appended.filter isParticipantMsg = [] := by
    intro ovx curx rx
    split
    · exact filter_participant_nil _ (fun m hm =>
        Or.inl (handleEscalation_appended_role E ovx curx rx m hm))
    · rfl
  have hname := chooseRole_name_ok E s.override s.cur.turn
    (if E.deadlockDetectionEnabled && detectDeadlock E s.store then
      (resolveDeadlock llm s.store).1 else s.store) h
  have hsel : (if E.deadlockDetectionEnabled && detectDeadlock E s.store then
      ((resolveDeadlock llm s.store).1, [(resolveDeadlock llm s.store).2])
      else (s.store, ([] : List Msg))).1 =
      (if E.deadlockDetectionEnabled && detectDeadlock E s.store then
        (resolveDeadlock llm s.store).1 else s.store) := by
    split <;> rfl
  rw [hdl, hsel, hesc]
  have hpart : isParticipantMsg
      ⟨(chooseRole E s.override s.cur.turn
        (if E.deadlockDetectionEnabled && detectDeadlock E s.store then
          (resolveDeadlock llm s.store).1 else s.store)).1.role, resp, [], 0⟩ = true := by
    unfold isParticipantMsg
    rw [decide_eq_false hname.1, decide_eq_false hname.2]
    rfl
  rw [List.nil_append, List.append_nil, List.filter_cons, if_pos hpart, List.filter_nil]

theorem runLoop_turn (E : Engine) (llm : String → String) (resp : Nat → String)
    (h : roleNamesOk E) :
    ∀ (fuel k : Nat) (s : RunSt),
      (runLoop E llm resp fuel k s).1.cur.turn =
        s.cur.turn + ((runLoop E llm resp fuel k s).2.filter isParticipantMsg).length := by
  intro fuel
  induction fuel with
  | zero => intro k s; simp [runLoop]
  | succ fuel ih =>
    intro k s
    rw [runLoop]
    split
    · simp only []
      rw [List.filter_append, List.length_append, ih (k + 1) _]
      rw [loopIter_trace E llm (resp k) s h, loopIter_turn]
      simp only [List.length_cons, List.length_nil]
      omega
    · simp

/-- C1: the turn counter counts exactly the messages the orchestration
loop appends under a participant author: over any run of
`run_discussion`, the final turn counter is the initial one plus the
number of appended messages whose author is neither `"System"` nor
`"System (Mediator)"` — each speaker message increments the counter by
one, while welcome, hierarchy-notice, escalation-notice and mediator
messages are appended without touching it. -/
theorem turn_counts_participant_messages (E : Engine) (llm : String → String)
    (resp : Nat → String) (persisted : DState) (h : roleNamesOk E) :
    (runDiscussion E llm resp persisted).1.cur.turn =
      persisted.turn +
        ((runDiscussion E llm resp persisted).2.filter isParticipantMsg).length := by
  rw [runDiscussion]
  simp only []
  rw [List.filter_append, List.length_append]
  have hw : ∀ (w : DState × List Msg),
      w = (if persisted.messages.isEmpty then
        (if E.hierarchicalMode then
          ({ { persisted with messages := persisted.messages ++ [welcomeMessage E] } with
              messages := ({ persisted with
                messages := persisted.messages ++ [welcomeMessage E] } : DState).messages
                ++ [hierarchyMessage] },
            [welcomeMessage E, hierarchyMessage])
        else ({ persisted with messages := persisted.messages ++ [welcomeMessage E] },
          [welcomeMessage E]))
      else (persisted, ([] : List Msg))) →
      w.1.turn = persisted.turn ∧ w.2.filter isParticipantMsg = [] := by
    intro w hwdef
    subst hwdef
    split
    · split
      · exact ⟨rfl, by simp [isParticipantMsg, welcomeMessage, hierarchyMessage]⟩
      · exact ⟨rfl, by simp [isParticipantMsg, welcomeMessage]⟩
    · exact ⟨rfl, rfl⟩
  obtain ⟨hw1, hw2⟩ := hw _ rfl
  rw [hw2, runLoop_turn E llm resp h E.maxTurns 0 _]
  simp only [List.length_nil, Nat.zero_add]
  rw [hw1]

/-- Witness for the turn accounting: a two-role flat discussion run for
two turns from an empty state. -/
theorem turn_counts_participant_messages_witness :
    roleNamesOk ⟨"T", [⟨"r1", "", none, "", []⟩, ⟨"r2", "", none, "", []⟩],
        2, false, mkRat 17 20, false, []⟩ ∧
    (runDiscussion ⟨"T", [⟨"r1", "", none, "", []⟩, ⟨"r2", "", none, "", []⟩],
        2, false, mkRat 17 20, false, []⟩ (fun _ => "m") (fun _ => "hello")
        ⟨"T", [⟨"r1", "", none, "", []⟩, ⟨"r2", "", none, "", []⟩], [], "", 0, none,
          false, false⟩).1.cur.turn =
      (⟨"T", [⟨"r1", "", none, "", []⟩, ⟨"r2", "", none, "", []⟩], [], "", 0, none,
          false, false⟩ : DState).turn +
        ((runDiscussion ⟨"T", [⟨"r1", "", none, "", []⟩, ⟨"r2", "", none, "", []⟩],
          2, false, mkRat 17 20, false, []⟩ (fun _ => "m") (fun _ => "hello")
          ⟨"T", [⟨"r1", "", none, "", []⟩, ⟨"r2", "", none, "", []⟩], [], "", 0, none,
            false, false⟩).2.filter isParticipantMsg).length :=
  ⟨by decide, turn_counts_participant_messages _ _ _ _ (by decide)⟩

/-- C2: the consensus flag is monotone: a loop entered on a state whose
`consensus_reached` is `True` performs no iteration and leaves the
state untouched (so the flag is never reset), and a whole
`run_discussion` resumed from a persisted state with the flag set (and
an existing history) returns immediately with the same state. -/
theorem consensus_flag_monotone (E : Engine) (llm : String → String)
    (resp : Nat → String) (fuel k : Nat) (s : RunSt) (persisted : DState)
    (hs : truthy s.cur.consensus_reached = true)
    (hp : truthy persisted.consensus_reached = true)
    (hm : persisted.messages ≠ []) :
    runLoop E llm resp fuel k s = (s, []) ∧
    runDiscussion E llm resp persisted = (⟨persisted, persisted, none⟩, []) := by
  have hloop : ∀ (fuel2 k2 : Nat) (s2 : RunSt),
      truthy s2.cur.consensus_reached = true →
      runLoop E llm resp fuel2 k2 s2 = (s2, []) := by
    intro fuel2 k2 s2 hs2
    cases fuel2 with
    | zero => rfl
    | succ fuel2 =>
      rw [runLoop, hs2]
      simp
  refine ⟨hloop fuel k s hs, ?_⟩
  rw [runDiscussion]
  have hne : persisted.messages.isEmpty = false := by
    cases hmm : persisted.messages with
    | nil => exact absurd hmm hm
    | cons a l => simp
  simp only [hne, Bool.false_eq_true, if_false]
  rw [hloop E.maxTurns 0 ⟨persisted, persisted, none⟩ hp]
  rfl

/-- Witness for consensus monotonicity: resuming from a state with the
flag already `True` runs zero iterations. -/
theorem consensus_flag_monotone_witness :
    truthy (⟨⟨"T", [], [⟨"r1", "x", [], 0⟩], "", 3, some true, false, false⟩,
        ⟨"T", [], [], "", 0, none, false, false⟩, none⟩ : RunSt).cur.consensus_reached = true ∧
    runDiscussion ⟨"T", [⟨"r1", "", none, "", []⟩], 5, false, mkRat 17 20, false, []⟩
        (fun _ => "m") (fun _ => "hello")
        ⟨"T", [], [⟨"r1", "x", [], 0⟩], "", 3, some true, false, false⟩ =
      (⟨⟨"T", [], [⟨"r1", "x", [], 0⟩], "", 3, some true, false, false⟩,
        ⟨"T", [], [⟨"r1", "x", [], 0⟩], "", 3, some true, false, false⟩, none⟩, []) :=
  ⟨by decide,
    (consensus_flag_monotone _ _ _ 5 0
      ⟨⟨"T", [], [⟨"r1", "x", [], 0⟩], "", 3, some true, false, false⟩,
        ⟨"T", [], [], "", 0, none, false, false⟩, none⟩
      ⟨"T", [], [⟨"r1", "x", [], 0⟩], "", 3, some true, false, false⟩
      (by decide) (by decide) (by decide)).2⟩

theorem mod_two_window (x n : Nat) (_hn : 0 < n) (h : x < 2 * n) :
    x % n = if x < n then x else x - n := by
  split
  · exact Nat.mod_eq_of_lt (by assumption)
  · have h1 : n ≤ x := Nat.le_of_not_lt (by assumption)
    rw [Nat.mod_eq_sub_mod h1]
    exact Nat.mod_eq_of_lt (by omega)

theorem count_range_eq_one (n a : Nat) (h : a < n) :
    (List.range n).count a = 1 := by
  induction n with
  | zero => omega
  | succ n ih =>
    rw [List.range_succ, List.count_append]
    by_cases ha : a < n
    · rw [ih ha]
      have hne : ¬ (n = a) := by omega
      simp [List.count_singleton, hne]
    · have han : a = n := by omega
      subst han
      have h0 : (List.range a).count a = 0 :=
        List.count_eq_zero.mpr (by simp)
      rw [h0]
      simp [List.count_singleton]

theorem map_mod_cycle_perm (c n : Nat) (hn : 0 < n) :
    ((List.range n).map (fun d => (c + d) % n)).Perm (List.range n) := by
  have hr : c % n < n := Nat.mod_lt _ hn
  have hnd : ((List.range n).map (fun d => (c + d) % n)).Nodup := by
    apply (List.nodup_range n).map_on
    intro x hx y hy hxy
    simp only [List.mem_range] at hx hy
    have hx2 : (c + x) % n = (c % n + x) % n := by
      conv_lhs => rw [Nat.add_mod]
      rw [Nat.mod_eq_of_lt hx]
    have hy2 : (c + y) % n = (c % n + y) % n := by
      conv_lhs => rw [Nat.add_mod]
      rw [Nat.mod_eq_of_lt hy]
    rw [hx2, hy2, mod_two_window (c % n + x) n hn (by omega),
      mod_two_window (c % n + y) n hn (by omega)] at hxy
    split at hxy <;> split at hxy <;> omega
  have hsub : ((List.range n).map (fun d => (c + d) % n)) ⊆ List.range n := by
    intro x hx
    rcases List.mem_map.mp hx with ⟨d, _, rfl⟩
    exact List.mem_range.mpr (Nat.mod_lt _ hn)
  exact List.Subperm.perm_of_length_le (hnd.subperm hsub) (by simp)

theorem count_mod_cycle (c n j : Nat) (hj : j < n) :
    ((List.range n).map (fun d => (c + d) % n)).count j = 1 := by
  rw [(map_mod_cycle_perm c n (by omega)).count_eq]
  exact count_range_eq_one n j hj

theorem count_mod_cycle_mul (c n j k : Nat) (hj : j < n) :
    ((List.range (k * n)).map (fun i => (c + i) % n)).count j = k := by
  induction k with
  | zero => simp
  | succ k ih =>
    have hkn : (k + 1) * n = k * n + n := by ring
    rw [hkn, List.range_add, List.map_append, List.count_append, ih]
    have hmap : ((List.range n).map (fun d => k * n + d)).map (fun i => (c + i) % n)
        = (List.range n).map (fun d => (c + d) % n) := by
      rw [List.map_map]
      apply List.map_congr_left
      intro d _
      show (c + (k * n + d)) % n = (c + d) % n
      have harr : c + (k * n + d) = (c + d) + k * n := by ring
      rw [harr, Nat.add_mul_mod_self_right]
    rw [hmap, count_mod_cycle c n j hj]

theorem count_name_eq (E : Engine) (hnd : (E.roles.map (fun r => r.role)).Nodup)
    (j : Nat) (hj : j < E.roles.length) :
    ∀ (l : List Nat), (∀ x ∈ l, x < E.roles.length) →
      (l.map (fun idx => (E.roles.getD idx defaultRole).role)).count
          ((E.roles.getD j defaultRole).role) = l.count j := by
  intro l
  induction l with
  | nil => intro _; simp
  | cons x xs ih =>
    intro hl
    have hx : x < E.roles.length := hl x (by simp)
    have hxs : ∀ y ∈ xs, y < E.roles.length := fun y hy => hl y (by simp [hy])
    rw [List.map_cons, List.count_cons, List.count_cons, ih hxs]
    congr 1
    have hiff : (E.roles.getD x defaultRole).role = (E.roles.getD j defaultRole).role ↔ x = j := by
      constructor
      · intro he
        have hx2 : x < (E.roles.map (fun r => r.role)).length := by simpa using hx
        have hj2 : j < (E.roles.map (fun r => r.role)).length := by simpa using hj
        have hgx : (E.roles.getD x defaultRole).role = (E.roles.get ⟨x, hx⟩).role := by
          rw [List.getD_eq_getElem _ _ hx, List.get_eq_getElem]
        have hgj : (E.roles.getD j defaultRole).role = (E.roles.get ⟨j, hj⟩).role := by
          rw [List.getD_eq_getElem _ _ hj, List.get_eq_getElem]
        have hmapx : (E.roles.map (fun r => r.role)).get ⟨x, hx2⟩
            = (E.roles.get ⟨x, hx⟩).role := by
          simp [List.get_eq_getElem]
        have hmapj : (E.roles.map (fun r => r.role)).get ⟨j, hj2⟩
            = (E.roles.get ⟨j, hj⟩).role := by
          simp [List.get_eq_getElem]
        have hmm : (E.roles.map (fun r => r.role)).get ⟨x, hx2⟩
            = (E.roles.map (fun r => r.role)).get ⟨j, hj2⟩ := by
          rw [hmapx, hmapj, ← hgx, ← hgj]; exact he
        have hfin := List.Nodup.get_inj_iff hnd |>.mp hmm
        exact congrArg Fin.val hfin
      · intro he; subst he; rfl
    by_cases hxj : x = j
    · subst hxj; simp
    · have hrne : ¬ ((E.roles.getD x defaultRole).role = (E.roles.getD j defaultRole).role) :=
        fun he => hxj (hiff.mp he)
      rw [if_neg (by simpa using hrne), if_neg (by simpa using hxj)]

theorem runLoop_flat_trace (E : Engine) (llm : String → String) (resp : Nat → String)
    (hflat : E.hierarchicalMode = false) (h : roleNamesOk E) :
    ∀ (fuel k : Nat) (s : RunSt),
      ((runLoop E llm resp fuel k s).2.filter isParticipantMsg).map (fun m => m.role)
        = (List.range ((runLoop E llm resp fuel k s).2.filter isParticipantMsg).length).map
            (fun i => flatSpeakerName E (s.cur.turn + i)) := by
  intro fuel
  induction fuel with
  | zero => intro k s; simp [runLoop]
  | succ fuel ih =>
    intro k s
    rw [runLoop]
    split
    · simp only []
      rw [List.filter_append, List.map_append, List.length_append]
      rw [loopIter_trace E llm (resp k) s h]
      have hcr : (chooseRole E s.override s.cur.turn
          (if E.deadlockDetectionEnabled && detectDeadlock E s.store then
            (resolveDeadlock llm s.store).1 else s.store)).1.role
          = flatSpeakerName E s.cur.turn := by
        rw [chooseRole, hflat]
        simp [flatSpeakerName]
      have hturn := loopIter_turn E llm (resp k) s
      have hih := ih (k + 1) (loopIter E llm (resp k) s).1
      rw [hturn] at hih
      rw [hih, hcr]
      set m2 := ((runLoop E llm resp fuel (k + 1) (loopIter E llm (resp k) s).1).2.filter
        isParticipantMsg).length with hm2
      have hone : (1 : Nat) + m2 = m2 + 1 := by omega
      simp only [List.map_cons, List.map_nil, List.length_cons, List.length_nil]
      rw [List.singleton_append, show (0 : Nat) + 1 + m2 = m2 + 1 by omega,
        List.range_succ_eq_map, List.map_cons, List.map_map]
      congr 1
      apply List.map_congr_left
      intro i _
      simp only [Function.comp_apply]
      congr 1
      omega
    · simp

/-- C8: flat-mode round-robin fairness: with no hierarchy the speaker of
the loop iteration whose local turn counter is `t` is
`roles[t % len(roles)]` — the participant-authored messages of any run
segment list exactly the cyclic role names starting at the initial turn
— and over any `k * len(roles)` consecutive turn counters every role
name occurs exactly `k` times. -/
theorem flat_round_robin (E : Engine) (llm : String → String) (resp : Nat → String)
    (fuel k0 t0 k j : Nat) (s : RunSt)
    (hflat : E.hierarchicalMode = false)
    (h : roleNamesOk E)
    (hnd : (E.roles.map (fun r => r.role)).Nodup)
    (hj : j < E.roles.length) :
    ((runLoop E llm resp fuel k0 s).2.filter isParticipantMsg).map (fun m => m.role)
      = (List.range ((runLoop E llm resp fuel k0 s).2.filter isParticipantMsg).length).map
          (fun i => flatSpeakerName E (s.cur.turn + i)) ∧
    ((List.range (k * E.roles.length)).map (fun i => flatSpeakerName E (t0 + i))).count
        ((E.roles.getD j defaultRole).role) = k := by
  refine ⟨runLoop_flat_trace E llm resp hflat h fuel k0 s, ?_⟩
  have hcomp : (List.range (k * E.roles.length)).map (fun i => flatSpeakerName E (t0 + i))
      = ((List.range (k * E.roles.length)).map (fun i => (t0 + i) % E.roles.length)).map
          (fun idx => (E.roles.getD idx defaultRole).role) := by
    rw [List.map_map]; rfl
  rw [hcomp, count_name_eq E hnd j hj _ (fun x hx => by
      rcases List.mem_map.mp hx with ⟨i, _, rfl⟩
      exact Nat.mod_lt _ (by omega)),
    count_mod_cycle_mul t0 _ j k hj]

/-- Witness for flat round-robin: a two-role engine run for two turns
from turn 0; over `1 * 2` consecutive turns role 0 speaks exactly
once. -/
theorem flat_round_robin_witness :
    (⟨"T", [⟨"r1", "", none, "", []⟩, ⟨"r2", "", none, "", []⟩],
        2, false, mkRat 17 20, false, []⟩ : Engine).hierarchicalMode = false ∧
    ((List.range (1 * 2)).map (fun i => flatSpeakerName
        ⟨"T", [⟨"r1", "", none, "", []⟩, ⟨"r2", "", none, "", []⟩],
          2, false, mkRat 17 20, false, []⟩ (0 + i))).count "r1" = 1 :=
  ⟨rfl,
    (flat_round_robin ⟨"T", [⟨"r1", "", none, "", []⟩, ⟨"r2", "", none, "", []⟩],
        2, false, mkRat 17 20, false, []⟩ (fun _ => "m") (fun _ => "hello")
      2 0 0 1 0
      ⟨⟨"T", [], [], "", 0, none, false, false⟩, ⟨"T", [], [], "", 0, none, false, false⟩, none⟩
      rfl (by decide) (by decide) (by decide)).2⟩

end DiscussionLlama
